import Mathlib

/-!
Verification development for the morphing-sphere particle system.

The embedding translates the particle logic of the repository
(`ParticleSphere`, `ParticleInteractionService`, `mathUtils`) into Lean
definitions over the real numbers.  `THREE.Vector3` / `THREE.Quaternion`
operations used by the code (`add`, `sub`, `multiplyScalar`, `dot`,
`length`, `normalize`, `applyQuaternion`, `invert`) are modelled by the
standard formulas those library calls compute.  The camera raycaster
(`Raycaster.setFromCamera`) is an external collaborator and is modelled as
an input function from normalized device coordinates to a ray, matching
the spec's "ray-construction capability (NDC -> ray)".
-/

open scoped Classical

noncomputable section

namespace MorphingSphere

/-- 3D vector of real numbers, modelling `THREE.Vector3`. -/
structure Vec3 where
  x : ℝ
  y : ℝ
  z : ℝ

instance : Zero Vec3 := ⟨⟨0, 0, 0⟩⟩

instance : Add Vec3 := ⟨fun a b => ⟨a.x + b.x, a.y + b.y, a.z + b.z⟩⟩

instance : Sub Vec3 := ⟨fun a b => ⟨a.x - b.x, a.y - b.y, a.z - b.z⟩⟩

instance : SMul ℝ Vec3 := ⟨fun r v => ⟨r * v.x, r * v.y, r * v.z⟩⟩

@[simp] lemma Vec3.zero_x : (0 : Vec3).x = 0 := rfl

@[simp] lemma Vec3.zero_y : (0 : Vec3).y = 0 := rfl

@[simp] lemma Vec3.zero_z : (0 : Vec3).z = 0 := rfl

@[simp] lemma Vec3.add_x (a b : Vec3) : (a + b).x = a.x + b.x := rfl

@[simp] lemma Vec3.add_y (a b : Vec3) : (a + b).y = a.y + b.y := rfl

@[simp] lemma Vec3.add_z (a b : Vec3) : (a + b).z = a.z + b.z := rfl

@[simp] lemma Vec3.sub_x (a b : Vec3) : (a - b).x = a.x - b.x := rfl

@[simp] lemma Vec3.sub_y (a b : Vec3) : (a - b).y = a.y - b.y := rfl

@[simp] lemma Vec3.sub_z (a b : Vec3) : (a - b).z = a.z - b.z := rfl

@[simp] lemma Vec3.smul_x (r : ℝ) (v : Vec3) : (r • v).x = r * v.x := rfl

@[simp] lemma Vec3.smul_y (r : ℝ) (v : Vec3) : (r • v).y = r * v.y := rfl

@[simp] lemma Vec3.smul_z (r : ℝ) (v : Vec3) : (r • v).z = r * v.z := rfl

/-- Dot product, modelling `THREE.Vector3.dot`. -/
def dotV (a b : Vec3) : ℝ := a.x * b.x + a.y * b.y + a.z * b.z

/-- Cross product, modelling `THREE.Vector3.cross` (used only in proofs
    about `applyQuat`). -/
def crossV (a b : Vec3) : Vec3 :=
  ⟨a.y * b.z - a.z * b.y, a.z * b.x - a.x * b.z, a.x * b.y - a.y * b.x⟩

/-- Euclidean length, modelling `THREE.Vector3.length`. -/
def vlength (v : Vec3) : ℝ := Real.sqrt (dotV v v)

/-- Normalization, modelling `THREE.Vector3.normalize`, which divides by
    `length() || 1`; a zero vector is left unchanged. -/
def vnormalize (v : Vec3) : Vec3 :=
  if vlength v = 0 then v else (1 / vlength v) • v

/-- Quaternion, modelling `THREE.Quaternion` (components x, y, z, w). -/
structure Quat where
  x : ℝ
  y : ℝ
  z : ℝ
  w : ℝ

/-- `THREE.Quaternion.invert` (conjugation; the inverse for unit quaternions). -/
def qconj (q : Quat) : Quat := ⟨-q.x, -q.y, -q.z, q.w⟩

/-- Squared norm of a quaternion. -/
def qnorm2 (q : Quat) : ℝ := q.x * q.x + q.y * q.y + q.z * q.z + q.w * q.w

/-- The identity quaternion (`THREE`'s default `points.quaternion`). -/
def idQuat : Quat := ⟨0, 0, 0, 1⟩

/-- `THREE.Vector3.applyQuaternion`: `v + 2w (u x v) + 2 u x (u x v)` with
    `u = (q.x, q.y, q.z)`, written exactly as in the THREE source via
    `t = 2 (u x v)`. -/
def applyQuat (q : Quat) (v : Vec3) : Vec3 :=
  let tx := 2 * (q.y * v.z - q.z * v.y)
  let ty := 2 * (q.z * v.x - q.x * v.z)
  let tz := 2 * (q.x * v.y - q.y * v.x)
  ⟨v.x + q.w * tx + (q.y * tz - q.z * ty),
   v.y + q.w * ty + (q.z * tx - q.x * tz),
   v.z + q.w * tz + (q.x * ty - q.y * tx)⟩

/-- mathUtils.js `lerpVec3`. -/
def lerpVec3 (a b : Vec3) (t : ℝ) : Vec3 :=
  ⟨a.x + (b.x - a.x) * t, a.y + (b.y - a.y) * t, a.z + (b.z - a.z) * t⟩

/-- mathUtils.js `easeInOutSine`. -/
def easeInOutSine (t : ℝ) : ℝ := -(Real.cos (Real.pi * t) - 1) / 2

/-- mathUtils.js `clamp`: `Math.max(min, Math.min(max, val))`. -/
def clampR (v lo hi : ℝ) : ℝ := max lo (min hi v)

/-! ### Basic vector lemmas -/

lemma dotV_nonneg (v : Vec3) : 0 ≤ dotV v v := by
  unfold dotV; nlinarith [sq_nonneg v.x, sq_nonneg v.y, sq_nonneg v.z]

lemma vlength_nonneg (v : Vec3) : 0 ≤ vlength v := Real.sqrt_nonneg _

lemma vlength_eq_zero_iff (v : Vec3) : vlength v = 0 ↔ v = 0 := by
  unfold vlength
  rw [Real.sqrt_eq_zero (dotV_nonneg v)]
  constructor
  · intro h
    have hx : v.x = 0 ∧ v.y = 0 ∧ v.z = 0 := by
      unfold dotV at h
      refine ⟨?_, ?_, ?_⟩ <;> nlinarith [sq_nonneg v.x, sq_nonneg v.y, sq_nonneg v.z]
    obtain ⟨h1, h2, h3⟩ := hx
    cases v
    simp only [show (0 : Vec3) = ⟨0, 0, 0⟩ from rfl, Vec3.mk.injEq]
    exact ⟨h1, h2, h3⟩
  · intro h
    subst h
    unfold dotV
    norm_num

lemma vlength_smul (r : ℝ) (v : Vec3) : vlength (r • v) = |r| * vlength v := by
  unfold vlength dotV
  simp only [Vec3.smul_x, Vec3.smul_y, Vec3.smul_z]
  rw [show r * v.x * (r * v.x) + r * v.y * (r * v.y) + r * v.z * (r * v.z)
        = r ^ 2 * (v.x * v.x + v.y * v.y + v.z * v.z) by ring,
      Real.sqrt_mul (sq_nonneg r), Real.sqrt_sq_eq_abs]

lemma vlength_normalize (v : Vec3) (h : v ≠ 0) : vlength (vnormalize v) = 1 := by
  have hz : vlength v ≠ 0 := fun hh => h ((vlength_eq_zero_iff v).mp hh)
  have hpos : 0 < vlength v := lt_of_le_of_ne (vlength_nonneg v) (Ne.symm hz)
  unfold vnormalize
  rw [if_neg hz, vlength_smul, abs_of_pos (by positivity : (0:ℝ) < 1 / vlength v)]
  field_simp

/-! ### Particle field construction (`ParticleSphere.initParticles`)

JavaScript numeric semantics: `0 / 0` is `NaN` and every arithmetic or
`Math.sqrt` operation propagates non-finite values, so a division by zero
poisons the whole coordinate computation.  `jsDiv` and `jsSqrt` return
`none` when JavaScript would produce a non-finite number, and the point
construction propagates `none` through `Option.bind`. -/

/-- JavaScript division: `none` models the non-finite result (`NaN` or
    infinity) produced when the divisor is zero. -/
def jsDiv (a b : ℝ) : Option ℝ := if b = 0 then none else some (a / b)

/-- JavaScript `Math.sqrt`: `NaN` (modelled `none`) on negative input. -/
def jsSqrt (x : ℝ) : Option ℝ := if x < 0 then none else some (Real.sqrt x)

/-- One point of `ParticleSphere.initParticles` (part_001 lines 270-277):
    `y = 1 - (i / (count-1)) * 2`, `r = sqrt(1 - y*y)`,
    `theta = PI * 2 * (i * 1.618034 % 1)`,
    point `(cos(theta)*r, y, sin(theta)*r) * RADIUS`. -/
def fibPoint (count : ℕ) (R : ℝ) (i : ℕ) : Option Vec3 :=
  (jsDiv (i : ℝ) ((count : ℝ) - 1)).bind fun q =>
    let y := 1 - q * 2
    (jsSqrt (1 - y * y)).bind fun r =>
      let theta := Real.pi * 2 * Int.fract ((i : ℝ) * 1.618034)
      some ⟨Real.cos theta * r * R, y * R, Real.sin theta * r * R⟩

/-- The full `positions` list built by the `initParticles` loop. -/
def initPositions (count : ℕ) (R : ℝ) : List (Option Vec3) :=
  (List.range count).map (fibPoint count R)

/-- The spec's own Fibonacci-lattice formula (section 4.2), stated with the
    golden-ratio fractional part 0.618034, for comparison with `fibPoint`.
    Modelled from the spec's words. -/
def specFibPoint (count : ℕ) (R : ℝ) (i : ℕ) : Vec3 :=
  let y : ℝ := 1 - 2 * (i : ℝ) / ((count : ℝ) - 1)
  let r : ℝ := Real.sqrt (1 - y ^ 2)
  let theta : ℝ := 2 * Real.pi * Int.fract ((i : ℝ) * 0.618034)
  ⟨Real.cos theta * r * R, y * R, Real.sin theta * r * R⟩

/-! ### Ray/sphere cursor resolution (`spreadDots`, part_001 lines 116-138)

The quadratic coefficients keep the source's names `a`, `b`, `c`,
`discriminant`, `t`. -/

/-- `a = rayDir.dot(rayDir)`. -/
def rsA (d : Vec3) : ℝ := dotV d d

/-- `b = 2 * rayOrigin.dot(rayDir)`. -/
def rsB (o d : Vec3) : ℝ := 2 * dotV o d

/-- `c = rayOrigin.dot(rayOrigin) - RADIUS * RADIUS`. -/
def rsC (o : Vec3) (R : ℝ) : ℝ := dotV o o - R * R

/-- `discriminant = b * b - 4 * a * c`. -/
def rsDisc (o d : Vec3) (R : ℝ) : ℝ := rsB o d * rsB o d - 4 * rsA d * rsC o R

/-- `t = (-b - Math.sqrt(discriminant)) / (2 * a)`: the nearer root. -/
def rsT (o d : Vec3) (R : ℝ) : ℝ :=
  (-rsB o d - Real.sqrt (rsDisc o d R)) / (2 * rsA d)

/-- Cursor world position from a ray (part_001 lines 125-138): the near
    ray/sphere intersection when the discriminant is nonnegative, otherwise
    the fallback that projects a point 5 units along the ray and places the
    cursor at `RADIUS` from the camera along the normalized direction to it. -/
def resolveCursor (o d camPos : Vec3) (R : ℝ) : Vec3 :=
  if 0 ≤ rsDisc o d R then o + rsT o d R • d
  else
    let camToPointer := o + (5 : ℝ) • d
    let dir := vnormalize (camToPointer - camPos)
    camPos + R • dir

/-- Screen pixel to normalized device coordinates (part_001 lines 116-119). -/
def toNDC (w h px py : ℝ) : ℝ × ℝ := ((px / w) * 2 - 1, -(py / h) * 2 + 1)

/-! ### Per-point state -/

/-- Per-point state of the particle field: the slices of the parallel arrays
    `originalPositions`, `spreadOffsets`, `spreadTimers`, `spreadKickT`,
    `spreadKickDir`, `spreadKickStart` of `ParticleSphere` for one index. -/
structure PointState where
  orig : Vec3
  offset : Vec3
  timer : ℝ
  kickT : ℝ
  kickDir : Vec3
  kickStart : Vec3

/-- `animateSpreadReturn` for one point (part_001 lines 86-105): advance a
    running kick by 0.035 (clamped to 1) and set the offset along the eased
    kick curve; otherwise count a positive timer down by 0.017 (floored at
    0); otherwise ease the offset 3 percent toward zero. -/
def animPoint (p : PointState) : PointState :=
  if p.kickT < 1 then
    let t1 := p.kickT + 0.035
    let t2 := if 1 < t1 then 1 else t1
    let e := easeInOutSine t2
    { p with kickT := t2,
             offset := ⟨p.kickStart.x + p.kickDir.x * e,
                        p.kickStart.y + p.kickDir.y * e,
                        p.kickStart.z + p.kickDir.z * e⟩ }
  else if 0 < p.timer then
    let tm := p.timer - 0.017
    { p with timer := if tm < 0 then 0 else tm }
  else
    { p with offset := ⟨p.offset.x + (0 - p.offset.x) * 0.03,
                        p.offset.y + (0 - p.offset.y) * 0.03,
                        p.offset.z + (0 - p.offset.z) * 0.03⟩ }

/-! ### The per-step point processor (`spreadDots` inner loop) -/

/-- Context of one interpolation step of `spreadDots`: the interpolated
    cursor sample, the (current) cursor world position used by the soft
    band, the sphere rotation, `CURSOR_RADIUS`, `RADIUS`, and the pointer
    samples used for the force computation. -/
structure StepCtx where
  interp : Vec3
  cursor : Vec3
  quat : Quat
  cursorRadius : ℝ
  radius : ℝ
  pointer : ℝ × ℝ
  lastPointer : Option (ℝ × ℝ)

/-- Pointer force (part_001 lines 194-197): screen-space speed over 5,
    with zero deltas when there is no previous pointer. -/
def forceOf (pointer : ℝ × ℝ) (lastPointer : Option (ℝ × ℝ)) : ℝ :=
  let dx := match lastPointer with
    | some lp => pointer.1 - lp.1
    | none => 0
  let dy := match lastPointer with
    | some lp => pointer.2 - lp.2
    | none => 0
  Real.sqrt (dx * dx + dy * dy) / 5

/-- Body of the inner loop of `spreadDots` (part_001 lines 179-229) for one
    point: skip points with a running kick; inside the exclusion zone either
    kick (at most `MAX_KICKS_PER_STEP = 2` per step, when the force exceeds
    0.5) or snap onto the exclusion surface; in the soft band ease the
    offset 18 percent toward the boundary target and set the hold timer to
    0.4.  Returns the new point state, kick counter, and touched flag. -/
def procPoint (c : StepCtx) (p : PointState) (kicks : ℕ) (touched : Bool) :
    PointState × ℕ × Bool :=
  if p.kickT < 1 then (p, kicks, touched)
  else
    let dotWorld := applyQuat c.quat p.orig
    let toCursor := dotWorld - c.interp
    let dist := vlength toCursor
    if dist < c.cursorRadius then
      let exclusionSurfaceWorld :=
        c.interp + (c.cursorRadius + 0.001) • vnormalize toCursor
      let exclusionSurfaceLocal := applyQuat (qconj c.quat) exclusionSurfaceWorld
      let force := forceOf c.pointer c.lastPointer
      if 0.5 < force ∧ kicks < 2 then
        let spreadAmt := clampR (0.7 * max 0 (force - 1.0) ^ (1.15 : ℝ)) 0 (c.radius * 0.7)
        let radial := vnormalize toCursor
        let kickDirWorld := spreadAmt • radial
        ({ p with kickStart := exclusionSurfaceLocal - p.orig,
                  kickT := 0,
                  kickDir := applyQuat (qconj c.quat) kickDirWorld,
                  offset := exclusionSurfaceLocal - p.orig },
         kicks + 1, true)
      else
        ({ p with offset := exclusionSurfaceLocal - p.orig }, kicks, true)
    else if dist < c.cursorRadius + 0.18 then
      let target := c.cursor + (c.cursorRadius + 0.001) • vnormalize toCursor
      let targetLocal := applyQuat (qconj c.quat) target
      ({ p with offset := p.offset + (0.18 : ℝ) • (targetLocal - (p.orig + p.offset)),
                timer := 0.4 },
       kicks, true)
    else (p, kicks, touched)

/-- One interpolation step over the whole point list, threading the
    `kicksThisStep` counter in index order (the `for i` loop of
    `spreadDots`). -/
def runStep (c : StepCtx) : List (PointState × Bool) → ℕ → List (PointState × Bool) × ℕ
  | [], k => ([], k)
  | (p, t) :: rest, k =>
      let r := procPoint c p k t
      let res := runStep c rest r.2.1
      ((r.1, r.2.2) :: res.1, res.2)

/-! ### `spreadDots` and the full frame update -/

/-- Per-frame input of `ParticleInteractionService.update` relevant to the
    sphere state: pointer samples, viewport, the camera's NDC-to-ray
    capability, camera position and the sphere rotation quaternion. -/
structure FrameInput where
  pointer : ℝ × ℝ
  lastPointer : Option (ℝ × ℝ)
  lastPointerEvent : Bool
  width : ℝ
  height : ℝ
  rayOf : ℝ × ℝ → Vec3 × Vec3
  camPos : Vec3
  quat : Quat

/-- The particle field: `RADIUS` plus the per-point arrays. -/
structure SphereState where
  radius : ℝ
  points : List PointState

/-- Resolve one pointer sample to a cursor world position: NDC mapping,
    camera ray, then `resolveCursor`. -/
def cursorWorldOf (inp : FrameInput) (R : ℝ) (pt : ℝ × ℝ) : Vec3 :=
  let ndc := toNDC inp.width inp.height pt.1 pt.2
  let ray := inp.rayOf ndc
  resolveCursor ray.1 ray.2 inp.camPos R

/-- The step context of interpolation step `s` (of 12): the interpolated
    cursor when a previous cursor exists (`lerpT = s / steps`), otherwise
    the current cursor. -/
def stepCtxAt (inp : FrameInput) (R : ℝ) (cursorWorld : Vec3)
    (prevCursorWorld : Option Vec3) (s : ℕ) : StepCtx :=
  let interp := match prevCursorWorld with
    | some pc => lerpVec3 pc cursorWorld ((s : ℝ) / 12)
    | none => cursorWorld
  { interp := interp, cursor := cursorWorld, quat := inp.quat,
    cursorRadius := R * 0.38, radius := R,
    pointer := inp.pointer, lastPointer := inp.lastPointer }

/-- The 13-sample loop of `spreadDots` (part_001 lines 170-230) given the
    already-resolved current and previous cursor world positions. -/
def spreadPass (inp : FrameInput) (R : ℝ) (cursorWorld : Vec3)
    (prevCursorWorld : Option Vec3) (pts : List (PointState × Bool)) :
    List (PointState × Bool) :=
  (List.range 13).foldl
    (fun acc s => (runStep (stepCtxAt inp R cursorWorld prevCursorWorld s) acc 0).1)
    pts

/-- The 13-sample interpolation pass of `spreadDots` (part_001 lines
    116-230), producing each point's final state and touched flag: resolve
    the current cursor, resolve the previous cursor when both `lastPointer`
    and `lastPointerEvent` are present (lines 144-166), then run the
    interpolation loop. -/
def spreadDotsAux (inp : FrameInput) (S : SphereState) : List (PointState × Bool) :=
  spreadPass inp S.radius (cursorWorldOf inp S.radius inp.pointer)
    (match inp.lastPointer, inp.lastPointerEvent with
     | some lp, true => some (cursorWorldOf inp S.radius lp)
     | _, _ => none)
    (S.points.map fun p => (p, false))

/-- `spreadDots` (part_001 lines 113-236): the interpolation pass followed
    by the untouched rule, which resets the hold timer of every point no
    sub-step touched (lines 231-235). -/
def spreadDots (inp : FrameInput) (S : SphereState) : SphereState :=
  let pts := (spreadDotsAux inp S).map
    (fun q => if q.2 then q.1 else { q.1 with timer := 0 })
  { S with points := pts }

/-- `ParticleInteractionService` state: the eased morph scalar and target
    (constructor lines 15-16), the host-set `enableMorph` flag (wired in
    part_000 lines 23-27), and the owned particle field. -/
structure ServiceState where
  morphLerp : ℝ
  morphTarget : ℝ
  enableMorph : Bool
  sphere : SphereState

/-- Input of one `update` call (part_001 line 24). -/
structure UpdateInput where
  time : ℝ
  pointer : Option (ℝ × ℝ)
  lastPointer : Option (ℝ × ℝ)
  lastPointerEvent : Bool
  width : ℝ
  height : ℝ
  rayOf : ℝ × ℝ → Vec3 × Vec3
  camPos : Vec3
  quat : Quat

/-- State part of `ParticleInteractionService.update` (part_001 lines
    24-31): run `animateSpreadReturn`, ease `morphLerp` 5 percent toward
    `morphTarget`, then run `spreadDots` only when a pointer sample is
    present. -/
def updateState (inp : UpdateInput) (S : ServiceState) : ServiceState :=
  let S1 := { S with sphere := { S.sphere with points := S.sphere.points.map animPoint } }
  let S2 := { S1 with morphLerp := S1.morphLerp + (S1.morphTarget - S1.morphLerp) * 0.05 }
  match inp.pointer with
  | some pt =>
      let fin : FrameInput :=
        { pointer := pt, lastPointer := inp.lastPointer,
          lastPointerEvent := inp.lastPointerEvent,
          width := inp.width, height := inp.height, rayOf := inp.rayOf,
          camPos := inp.camPos, quat := inp.quat }
      { S2 with sphere := spreadDots fin S2.sphere }
  | none => S2

/-- JavaScript `Math.atan2`. -/
def atan2 (y x : ℝ) : ℝ :=
  if 0 < x then Real.arctan (y / x)
  else if x < 0 then
    (if 0 ≤ y then Real.arctan (y / x) + Real.pi else Real.arctan (y / x) - Real.pi)
  else (if 0 < y then Real.pi / 2 else if y < 0 then -(Real.pi / 2) else 0)

/-- The render-buffer position of one point written by `update` (part_001
    lines 38-57): the radial two-wave morph scaled by `morphLerp`, plus the
    spread offset. -/
def renderPosition (time R morphLerp : ℝ) (p : PointState) : Vec3 :=
  let ux := p.orig.x / R
  let uy := p.orig.y / R
  let uz := p.orig.z / R
  let theta := Real.arccos (clampR uy (-1) 1)
  let phi := atan2 uz ux
  let wave1 := Real.sin (time * 0.002 + theta * 5 + phi * 3)
  let wave2 := Real.cos (time * 0.001 + theta * 3 - phi * 2)
  let baseOffset := (wave1 + wave2) * 0.5 * (R * 0.15)
  let radOffset := baseOffset * morphLerp
  let r := R + radOffset
  ⟨ux * r + p.offset.x, uy * r + p.offset.y, uz * r + p.offset.z⟩

/-- Host toggle wiring (part_000 lines 23-27): the change listener assigns
    the checkbox state to `interactionService.enableMorph` and nothing
    else. -/
def setEnableMorph (b : Bool) (S : ServiceState) : ServiceState :=
  { S with enableMorph := b }

/-- Service construction (part_001 lines 12-17): `morphLerp = 1`,
    `morphTarget = 1`; the initial `enableMorph` comes from the host's
    checkbox (part_000 line 24). -/
def initMorphService (b : Bool) (sph : SphereState) : ServiceState :=
  { morphLerp := 1, morphTarget := 1, enableMorph := b, sphere := sph }

/-! ### Lattice lemmas and claims C3, C4 -/

lemma vlength_fib (θ y R : ℝ) (hy : 0 ≤ 1 - y * y) (hR : 0 ≤ R) :
    vlength ⟨Real.cos θ * Real.sqrt (1 - y * y) * R, y * R,
             Real.sin θ * Real.sqrt (1 - y * y) * R⟩ = R := by
  have hr2 : Real.sqrt (1 - y * y) ^ 2 = 1 - y * y := Real.sq_sqrt hy
  have hcs : Real.sin θ ^ 2 + Real.cos θ ^ 2 = 1 := Real.sin_sq_add_cos_sq θ
  have hdot : dotV ⟨Real.cos θ * Real.sqrt (1 - y * y) * R, y * R,
                    Real.sin θ * Real.sqrt (1 - y * y) * R⟩
                   ⟨Real.cos θ * Real.sqrt (1 - y * y) * R, y * R,
                    Real.sin θ * Real.sqrt (1 - y * y) * R⟩ = R * R := by
    unfold dotV
    simp only
    linear_combination (Real.sqrt (1 - y * y) ^ 2 * R ^ 2) * hcs + R ^ 2 * hr2
  unfold vlength
  rw [hdot, Real.sqrt_mul_self hR]

lemma fract_golden (i : ℕ) :
    Int.fract ((i : ℝ) * 1.618034) = Int.fract ((i : ℝ) * 0.618034) := by
  have h : (i : ℝ) * 1.618034 = (i : ℝ) * 0.618034 + (i : ℕ) := by ring
  rw [h, Int.fract_add_nat]

/-- C3: for `count >= 2` and `radius > 0` the construction places `count`
    points via the Fibonacci lattice, each resulting point equals the
    spec's formula (with the golden-ratio fractional part 0.618034, the
    code's 1.618034 being equivalent modulo 1 for integer `i`), and every
    point lies at distance `radius` from the origin. -/
theorem c3_fibonacci_lattice (count : ℕ) (R : ℝ) (i : ℕ)
    (hc : 2 ≤ count) (hR : 0 < R) (hi : i < count) :
    (initPositions count R).length = count ∧
    Int.fract ((i : ℝ) * 1.618034) = Int.fract ((i : ℝ) * 0.618034) ∧
    fibPoint count R i = some (specFibPoint count R i) ∧
    vlength (specFibPoint count R i) = R := by
  have hc2 : (2 : ℝ) ≤ (count : ℝ) := by exact_mod_cast hc
  have hden : ((count : ℝ) - 1) ≠ 0 := by linarith
  have hdenpos : (0 : ℝ) < (count : ℝ) - 1 := by linarith
  have hiub : (i : ℝ) ≤ (count : ℝ) - 1 := by
    have : (i : ℕ) + 1 ≤ count := hi
    have h1 : ((i : ℝ) + 1) ≤ (count : ℝ) := by exact_mod_cast this
    linarith
  set q : ℝ := (i : ℝ) / ((count : ℝ) - 1) with hq
  have hq0 : 0 ≤ q := div_nonneg (Nat.cast_nonneg i) (le_of_lt hdenpos)
  have hq1 : q ≤ 1 := (div_le_one hdenpos).mpr hiub
  set y : ℝ := 1 - q * 2 with hydef
  have hy1 : -1 ≤ y := by simp only [hydef]; linarith
  have hy2 : y ≤ 1 := by simp only [hydef]; linarith
  have hynn : 0 ≤ 1 - y * y := by nlinarith
  have hsq : ¬ (1 - y * y < 0) := not_lt.mpr hynn
  have hyy : 1 - 2 * (i : ℝ) / ((count : ℝ) - 1) = y := by
    simp only [hydef, hq]; ring
  have hpow : 1 - y ^ 2 = 1 - y * y := by ring
  have hth : Real.pi * 2 * Int.fract ((i : ℝ) * 1.618034)
      = 2 * Real.pi * Int.fract ((i : ℝ) * 0.618034) := by
    rw [fract_golden i]; ring
  refine ⟨?_, fract_golden i, ?_, ?_⟩
  · unfold initPositions
    rw [List.length_map, List.length_range]
  · unfold fibPoint jsDiv jsSqrt specFibPoint
    rw [if_neg hden]
    simp only [Option.some_bind, ← hq, ← hydef, if_neg hsq, hyy, hpow, hth]
  · unfold specFibPoint
    simp only [hyy, hpow]
    exact vlength_fib _ y R hynn (le_of_lt hR)

/-- Witness for C3 at `count = 2`, `radius = 1`, `i = 0`. -/
theorem c3_fibonacci_lattice_witness :
    2 ≤ 2 ∧ (0 : ℝ) < 1 ∧ 0 < 2 ∧
    ((initPositions 2 1).length = 2 ∧
     Int.fract ((0 : ℝ) * 1.618034) = Int.fract ((0 : ℝ) * 0.618034) ∧
     fibPoint 2 1 0 = some (specFibPoint 2 1 0) ∧
     vlength (specFibPoint 2 1 0) = 1) := by
  refine ⟨le_refl 2, by norm_num, by norm_num, ?_⟩
  have h := c3_fibonacci_lattice 2 1 0 (by norm_num) (by norm_num) (by norm_num)
  simpa using h

/-- C4 counterexample: with `count = 1` the divisor `count - 1` is zero, so
    JavaScript computes `0/0 = NaN` and index 0 gets no finite position at
    all; in particular it is not the claimed `(cos(0)*1, 1, sin(0)*1)`. -/
theorem c4_count_one_cex :
    fibPoint 1 1 0 ≠ some ⟨Real.cos 0 * 1, 1, Real.sin 0 * 1⟩ := by
  unfold fibPoint jsDiv
  norm_num
  exact fun hcon => Option.noConfusion hcon

/-- C4 amended: constructing with `count = 1`, `radius = 1` produces a
    non-finite (NaN) position for index 0, since `y = 1 - (0/0)*2` is NaN
    in JavaScript; the lattice-formula prediction `(0, 1, 0)` instead holds
    at the smallest valid count, `count = 2`, `radius = 1`, index 0. -/
theorem c4_count_one_amended :
    fibPoint 1 1 0 = none ∧ fibPoint 2 1 0 = some ⟨0, 1, 0⟩ := by
  constructor
  · unfold fibPoint jsDiv
    norm_num
  · unfold fibPoint jsDiv jsSqrt
    norm_num [Int.fract_zero]

/-! ### Claim C7: kick monotonicity and exact easing endpoints -/

/-- C7: while a point is kicking, `animPoint` advances `kickProgress` by
    the fixed step 0.035 clamped to 1 (hence non-decreasing), the offset
    follows `kickStart + kickDirection * easeInOutSine(kickProgress)`, and
    `easeInOutSine` is exactly 0 at 0 and 1 at 1. -/
theorem c7_kick_monotone (p : PointState) (h : p.kickT < 1) :
    (animPoint p).kickT = min 1 (p.kickT + 0.035) ∧
    p.kickT ≤ (animPoint p).kickT ∧
    (animPoint p).offset =
      ⟨p.kickStart.x + p.kickDir.x * easeInOutSine ((animPoint p).kickT),
       p.kickStart.y + p.kickDir.y * easeInOutSine ((animPoint p).kickT),
       p.kickStart.z + p.kickDir.z * easeInOutSine ((animPoint p).kickT)⟩ ∧
    easeInOutSine 0 = 0 ∧ easeInOutSine 1 = 1 := by
  have e0 : easeInOutSine 0 = 0 := by
    unfold easeInOutSine
    rw [mul_zero, Real.cos_zero]
    norm_num
  have e1 : easeInOutSine 1 = 1 := by
    unfold easeInOutSine
    rw [mul_one, Real.cos_pi]
    norm_num
  unfold animPoint
  rw [if_pos h]
  simp only
  by_cases h1 : 1 < p.kickT + 0.035
  · rw [if_pos h1]
    exact ⟨(min_eq_left (le_of_lt h1)).symm, le_of_lt h, trivial, e0, e1⟩
  · rw [if_neg h1]
    exact ⟨(min_eq_right (not_lt.mp h1)).symm, by linarith, trivial, e0, e1⟩

/-- Concrete point used for the C7 witness. -/
def c7pt : PointState := ⟨0, 0, 0, 0, 0, 0⟩

/-- Witness for C7 at a point with `kickT = 0`. -/
theorem c7_kick_monotone_witness :
    c7pt.kickT < 1 ∧
    ((animPoint c7pt).kickT = min 1 (c7pt.kickT + 0.035) ∧
     c7pt.kickT ≤ (animPoint c7pt).kickT ∧
     (animPoint c7pt).offset =
       ⟨c7pt.kickStart.x + c7pt.kickDir.x * easeInOutSine ((animPoint c7pt).kickT),
        c7pt.kickStart.y + c7pt.kickDir.y * easeInOutSine ((animPoint c7pt).kickT),
        c7pt.kickStart.z + c7pt.kickDir.z * easeInOutSine ((animPoint c7pt).kickT)⟩ ∧
     easeInOutSine 0 = 0 ∧ easeInOutSine 1 = 1) := by
  have hk : c7pt.kickT < 1 := by
    show (0 : ℝ) < 1
    norm_num
  exact ⟨hk, c7_kick_monotone c7pt hk⟩

/-! ### Claim C5: the pointer geometry resolver -/

lemma vec3_eq (a b : Vec3) (hx : a.x = b.x) (hy : a.y = b.y) (hz : a.z = b.z) :
    a = b := by
  cases a; cases b; simp_all

lemma dotV_ray (o d : Vec3) (t : ℝ) :
    dotV (o + t • d) (o + t • d) =
      dotV o o + 2 * t * dotV o d + t ^ 2 * dotV d d := by
  unfold dotV
  simp only [Vec3.add_x, Vec3.add_y, Vec3.add_z, Vec3.smul_x, Vec3.smul_y, Vec3.smul_z]
  ring

lemma root_of_disc (o d : Vec3) (R : ℝ) (ha : rsA d ≠ 0) (h : 0 ≤ rsDisc o d R) :
    rsA d * rsT o d R ^ 2 + rsB o d * rsT o d R + rsC o R = 0 := by
  have hs : Real.sqrt (rsDisc o d R) ^ 2 = rsDisc o d R := Real.sq_sqrt h
  have expand : rsA d * rsT o d R ^ 2 + rsB o d * rsT o d R + rsC o R
      = (Real.sqrt (rsDisc o d R) ^ 2 - (rsB o d * rsB o d - 4 * rsA d * rsC o R))
        / (4 * rsA d) := by
    unfold rsT
    field_simp
    linear_combination (rsA d ^ 3 * 8) * hs
  rw [expand, hs]
  unfold rsDisc
  simp [sub_self]

lemma ne_zero_of_rsA (d : Vec3) (h : rsA d ≠ 0) : d ≠ 0 := by
  intro hh
  apply h
  rw [hh]
  unfold rsA dotV
  simp

/-- C5: the pointer geometry resolver is total; when the discriminant is
    nonnegative it returns `origin + t * dir` for the nearer root `t`, a
    point at distance `radius` from the world origin, and when the
    discriminant is negative it returns the fallback point at exactly
    distance `radius` from the camera position (the ray originates at the
    camera and has a nonzero direction). -/
theorem c5_resolver_postcondition (o d camPos : Vec3) (R : ℝ)
    (hR : 0 ≤ R) (ha : rsA d ≠ 0) (ho : o = camPos) :
    (0 ≤ rsDisc o d R →
      resolveCursor o d camPos R = o + rsT o d R • d ∧
      vlength (resolveCursor o d camPos R) = R) ∧
    (rsDisc o d R < 0 →
      vlength (resolveCursor o d camPos R - camPos) = R) := by
  constructor
  · intro hdisc
    have hres : resolveCursor o d camPos R = o + rsT o d R • d := by
      unfold resolveCursor
      rw [if_pos hdisc]
    refine ⟨hres, ?_⟩
    rw [hres]
    have hdot : dotV (o + rsT o d R • d) (o + rsT o d R • d) = R * R := by
      rw [dotV_ray]
      have hk := root_of_disc o d R ha hdisc
      unfold rsA rsB rsC at hk
      linear_combination hk
    unfold vlength
    rw [hdot, Real.sqrt_mul_self hR]
  · intro hdisc
    have hres : resolveCursor o d camPos R =
        camPos + R • vnormalize (o + (5 : ℝ) • d - camPos) := by
      unfold resolveCursor
      rw [if_neg (not_le.mpr hdisc)]
    have h5 : o + (5 : ℝ) • d - camPos = (5 : ℝ) • d := by
      subst ho
      apply vec3_eq <;> simp
    have hd0 : d ≠ 0 := ne_zero_of_rsA d ha
    have h5d : (5 : ℝ) • d ≠ 0 := by
      intro hh
      apply hd0
      have hx := congrArg Vec3.x hh
      have hy := congrArg Vec3.y hh
      have hz := congrArg Vec3.z hh
      simp only [Vec3.smul_x, Vec3.smul_y, Vec3.smul_z,
        Vec3.zero_x, Vec3.zero_y, Vec3.zero_z] at hx hy hz
      apply vec3_eq <;> simp <;> linarith
    have hcancel : camPos + R • vnormalize ((5 : ℝ) • d) - camPos =
        R • vnormalize ((5 : ℝ) • d) := by
      apply vec3_eq <;> simp
    rw [hres, h5, hcancel, vlength_smul, vlength_normalize _ h5d,
        abs_of_nonneg hR, mul_one]

/-- Witness for C5 on the ray from `(0,0,3)` toward `(0,0,-1)` against the
    sphere of radius 2 (discriminant 16, near hit `(0,0,2)`). -/
theorem c5_resolver_postcondition_witness :
    (0 : ℝ) ≤ 2 ∧ rsA ⟨0, 0, -1⟩ ≠ 0 ∧
    ((0 ≤ rsDisc ⟨0, 0, 3⟩ ⟨0, 0, -1⟩ 2 →
      resolveCursor ⟨0, 0, 3⟩ ⟨0, 0, -1⟩ ⟨0, 0, 3⟩ 2 =
        (⟨0, 0, 3⟩ : Vec3) + rsT ⟨0, 0, 3⟩ ⟨0, 0, -1⟩ 2 • (⟨0, 0, -1⟩ : Vec3) ∧
      vlength (resolveCursor ⟨0, 0, 3⟩ ⟨0, 0, -1⟩ ⟨0, 0, 3⟩ 2) = 2) ∧
    (rsDisc ⟨0, 0, 3⟩ ⟨0, 0, -1⟩ 2 < 0 →
      vlength (resolveCursor ⟨0, 0, 3⟩ ⟨0, 0, -1⟩ ⟨0, 0, 3⟩ 2 - ⟨0, 0, 3⟩) = 2)) := by
  refine ⟨by norm_num, ?_, ?_⟩
  · unfold rsA dotV
    norm_num
  · exact c5_resolver_postcondition ⟨0, 0, 3⟩ ⟨0, 0, -1⟩ ⟨0, 0, 3⟩ 2
      (by norm_num) (by unfold rsA dotV; norm_num) rfl

/-! ### Claim C1: the morph toggle versus `morphLerp` -/

lemma updateState_morph (i : UpdateInput) (s : ServiceState) :
    (updateState i s).morphLerp = s.morphLerp + (s.morphTarget - s.morphLerp) * 0.05 ∧
    (updateState i s).morphTarget = s.morphTarget ∧
    (updateState i s).enableMorph = s.enableMorph := by
  unfold updateState
  cases hi : i.pointer <;> simp [hi]

lemma renderPosition_north :
    renderPosition 0 2 1 ⟨⟨0, 2, 0⟩, 0, 0, 1, 0, 0⟩ = ⟨0, 2.15, 0⟩ := by
  unfold renderPosition atan2 clampR
  norm_num [Real.arccos_one]

/-- C1 (code defect): the host toggle only writes `enableMorph`, which the
    interaction service never reads; `morphTarget` stays at its constructor
    value 1, so with the flag held false for any number of frames
    `morphLerp` remains exactly 1 (it does not converge to 0) and the
    radial wave-offset term does not vanish: the north-pole point of a
    radius-2 sphere still renders at radius 2.15 at time 0. -/
theorem c1_morph_toggle_dead (b : Bool) (sph : SphereState) (l : List UpdateInput) :
    (l.foldl (fun s i => updateState i s)
        (setEnableMorph false (initMorphService b sph))).morphLerp = 1 ∧
    (l.foldl (fun s i => updateState i s)
        (setEnableMorph false (initMorphService b sph))).morphTarget = 1 ∧
    (l.foldl (fun s i => updateState i s)
        (setEnableMorph false (initMorphService b sph))).enableMorph = false ∧
    renderPosition 0 2
      ((l.foldl (fun s i => updateState i s)
          (setEnableMorph false (initMorphService b sph))).morphLerp)
      ⟨⟨0, 2, 0⟩, 0, 0, 1, 0, 0⟩ = ⟨0, 2.15, 0⟩ := by
  have main : ∀ (l : List UpdateInput) (s : ServiceState),
      s.morphLerp = 1 → s.morphTarget = 1 → s.enableMorph = false →
      (l.foldl (fun s i => updateState i s) s).morphLerp = 1 ∧
      (l.foldl (fun s i => updateState i s) s).morphTarget = 1 ∧
      (l.foldl (fun s i => updateState i s) s).enableMorph = false := by
    intro l
    induction l with
    | nil => intro s h1 h2 h3; exact ⟨h1, h2, h3⟩
    | cons i rest ih =>
        intro s h1 h2 h3
        apply ih
        · rw [(updateState_morph i s).1, h1, h2]; ring
        · rw [(updateState_morph i s).2.1, h2]
        · rw [(updateState_morph i s).2.2, h3]
  have h := main l (setEnableMorph false (initMorphService b sph)) rfl rfl rfl
  refine ⟨h.1, h.2.1, h.2.2, ?_⟩
  rw [h.1]
  exact renderPosition_north

/-! ### Claim C10: a frame with no pointer sample -/

/-- C10: when `update` is called with a null pointer sample, the whole
    pointer-interaction pass (`spreadDots`) is skipped: the particle field
    changes only by `animateSpreadReturn` (kick advance, 0.017 timer
    decrement floored at 0, 3 percent offset decay) and the `morphLerp`
    easing; no point is kicked, snapped, held at 0.4 or timer-reset by the
    untouched rule. -/
theorem c10_null_pointer_frame (inp : UpdateInput) (S : ServiceState)
    (h : inp.pointer = none) :
    updateState inp S =
      { S with sphere := { S.sphere with points := S.sphere.points.map animPoint },
               morphLerp := S.morphLerp + (S.morphTarget - S.morphLerp) * 0.05 } := by
  unfold updateState
  rw [h]

/-- Concrete frame input for the C10 witness. -/
def c10inp : UpdateInput :=
  { time := 0, pointer := none, lastPointer := none, lastPointerEvent := false,
    width := 1, height := 1, rayOf := fun _ => (0, 0), camPos := 0, quat := idQuat }

/-- Concrete service state for the C10 witness. -/
def c10S : ServiceState :=
  initMorphService true { radius := 2, points := [⟨⟨0, 2, 0⟩, 0, 0, 1, 0, 0⟩] }

/-- Witness for C10 at a concrete frame with no pointer. -/
theorem c10_null_pointer_frame_witness :
    c10inp.pointer = none ∧
    updateState c10inp c10S =
      { c10S with
          sphere := { c10S.sphere with points := c10S.sphere.points.map animPoint },
          morphLerp := c10S.morphLerp + (c10S.morphTarget - c10S.morphLerp) * 0.05 } :=
  ⟨rfl, c10_null_pointer_frame c10inp c10S rfl⟩

/-! ### Claim C8: untouched reset and exponential return home -/

lemma vone_smul (v : Vec3) : (1 : ℝ) • v = v := by
  cases v
  simp only [show ∀ a b c : ℝ, ((1 : ℝ) • (Vec3.mk a b c)) = ⟨1 * a, 1 * b, 1 * c⟩
    from fun _ _ _ => rfl, Vec3.mk.injEq]
  norm_num

lemma pointState_eq (a b : PointState) (h1 : a.orig = b.orig)
    (h2 : a.offset = b.offset) (h3 : a.timer = b.timer) (h4 : a.kickT = b.kickT)
    (h5 : a.kickDir = b.kickDir) (h6 : a.kickStart = b.kickStart) : a = b := by
  cases a; cases b; simp_all

lemma animPoint_rest (p : PointState) (hk : ¬ p.kickT < 1) (ht : ¬ 0 < p.timer) :
    animPoint p = { p with offset := ⟨p.offset.x + (0 - p.offset.x) * 0.03,
                                      p.offset.y + (0 - p.offset.y) * 0.03,
                                      p.offset.z + (0 - p.offset.z) * 0.03⟩ } := by
  unfold animPoint
  rw [if_neg hk, if_neg ht]

lemma animPoint_rest_smul (p : PointState) (hk : ¬ p.kickT < 1) (ht : ¬ 0 < p.timer) :
    (animPoint p).offset = (0.97 : ℝ) • p.offset := by
  rw [animPoint_rest p hk ht]
  apply vec3_eq <;> simp <;> ring

lemma animPoint_iter (p : PointState) (hk : ¬ p.kickT < 1) (ht : ¬ 0 < p.timer) :
    ∀ n : ℕ, animPoint^[n] p = { p with offset := ((0.97 : ℝ) ^ n) • p.offset } := by
  intro n
  induction n with
  | zero =>
      simp only [Function.iterate_zero, id_eq, pow_zero, vone_smul]
  | succ n ih =>
      rw [Function.iterate_succ_apply', ih,
          animPoint_rest _ (by simpa using hk) (by simpa using ht)]
      refine pointState_eq _ _ (by simp) ?_ (by simp) (by simp) (by simp) (by simp)
      apply vec3_eq <;> simp <;> ring

/-- C8: a point no interpolation sub-step touched in a frame gets its
    `returnTimer` reset to 0 by `spreadDots`; an at-rest point
    (`kickProgress = 1`, `returnTimer = 0`) has its offset multiplied by
    0.97 each frame; consequently, for every positive epsilon, after enough
    frames without pointer proximity the offset is within epsilon of
    zero. -/
theorem c8_return_home :
    (∀ (inp : FrameInput) (S : SphereState) (i : ℕ) (q : PointState × Bool),
        (spreadDotsAux inp S)[i]? = some q → q.2 = false →
        (spreadDots inp S).points[i]? = some { q.1 with timer := 0 }) ∧
    (∀ p : PointState, ¬ p.kickT < 1 → ¬ 0 < p.timer →
        (animPoint p).offset = (0.97 : ℝ) • p.offset) ∧
    (∀ p : PointState, ¬ p.kickT < 1 → ¬ 0 < p.timer →
        ∀ ε : ℝ, 0 < ε → ∃ N : ℕ, ∀ n : ℕ, N ≤ n →
          vlength ((animPoint^[n] p).offset) < ε) := by
  refine ⟨?_, animPoint_rest_smul, ?_⟩
  · intro inp S i q hq hfalse
    unfold spreadDots
    simp only [List.getElem?_map, hq]
    simp [hfalse]
  · intro p hk ht ε hε
    set L : ℝ := vlength p.offset with hL
    have hL0 : 0 ≤ L := vlength_nonneg _
    have hL1 : 0 < L + 1 := by linarith
    obtain ⟨N, hN⟩ := exists_pow_lt_of_lt_one (div_pos hε hL1) (by norm_num : (0.97 : ℝ) < 1)
    refine ⟨N, fun n hn => ?_⟩
    rw [animPoint_iter p hk ht n]
    have hpow : (0.97 : ℝ) ^ n ≤ (0.97 : ℝ) ^ N :=
      pow_le_pow_of_le_one (by norm_num) (by norm_num) hn
    have hpos : (0 : ℝ) ≤ (0.97 : ℝ) ^ n := by positivity
    calc vlength (((0.97 : ℝ) ^ n) • p.offset)
        = (0.97 : ℝ) ^ n * L := by
          rw [vlength_smul, abs_of_nonneg hpos, hL]
      _ ≤ (0.97 : ℝ) ^ n * (L + 1) := by nlinarith
      _ < (ε / (L + 1)) * (L + 1) := by
          apply mul_lt_mul_of_pos_right _ hL1
          exact lt_of_le_of_lt hpow hN
      _ = ε := div_mul_cancel₀ ε (ne_of_gt hL1)

/-- Concrete at-rest point for the C8 witness. -/
def c8pt : PointState := ⟨0, ⟨1, 0, 0⟩, 0, 1, 0, 0⟩

/-- Witness for C8: the decay law and convergence at a concrete at-rest
    point with offset `(1,0,0)` and epsilon `1/2`. -/
theorem c8_return_home_witness :
    ¬ c8pt.kickT < 1 ∧ ¬ 0 < c8pt.timer ∧ (0 : ℝ) < 1 / 2 ∧
    (animPoint c8pt).offset = (0.97 : ℝ) • c8pt.offset ∧
    (∃ N : ℕ, ∀ n : ℕ, N ≤ n →
        vlength ((animPoint^[n] c8pt).offset) < 1 / 2) := by
  have hk : ¬ c8pt.kickT < 1 := by
    show ¬ (1 : ℝ) < 1
    norm_num
  have ht : ¬ 0 < c8pt.timer := by
    show ¬ (0 : ℝ) < 0
    norm_num
  exact ⟨hk, ht, by norm_num, c8_return_home.2.1 c8pt hk ht,
    c8_return_home.2.2 c8pt hk ht (1 / 2) (by norm_num)⟩

/-! ### Claim C6: the per-step kick cap -/

/-- A pair of before/after states of one point records a kick issued by the
    step exactly when the point was not already kicking (`kickT >= 1`) and
    its `kickT` was set to 0. -/
def kickedPair (q : (PointState × Bool) × (PointState × Bool)) : Prop :=
  1 ≤ q.1.1.kickT ∧ q.2.1.kickT = 0

/-- Number of kicks a step issued, counted over the before/after lists. -/
def countKicked (before after : List (PointState × Bool)) : ℕ :=
  (before.zip after).countP fun q => decide (kickedPair q)

lemma runStep_nil (c : StepCtx) (k : ℕ) : runStep c [] k = ([], k) := rfl

lemma runStep_cons (c : StepCtx) (p : PointState) (t : Bool)
    (rest : List (PointState × Bool)) (k : ℕ) :
    runStep c ((p, t) :: rest) k =
      (((procPoint c p k t).1, (procPoint c p k t).2.2) ::
          (runStep c rest (procPoint c p k t).2.1).1,
        (runStep c rest (procPoint c p k t).2.1).2) := rfl

lemma procPoint_counter (c : StepCtx) (p : PointState) (k : ℕ) (t : Bool) :
    ((procPoint c p k t).2.1 = k ∧ (procPoint c p k t).1.kickT = p.kickT) ∨
    ((procPoint c p k t).2.1 = k + 1 ∧ (procPoint c p k t).1.kickT = 0 ∧
      1 ≤ p.kickT ∧ k < 2) := by
  unfold procPoint
  dsimp only
  split_ifs with h1 h2 h3 h4
  · exact Or.inl ⟨rfl, rfl⟩
  · exact Or.inr ⟨rfl, rfl, not_lt.mp h1, h3.2⟩
  · exact Or.inl ⟨rfl, rfl⟩
  · exact Or.inl ⟨rfl, rfl⟩
  · exact Or.inl ⟨rfl, rfl⟩

lemma runStep_spec (c : StepCtx) :
    ∀ (pts : List (PointState × Bool)) (k : ℕ),
      (runStep c pts k).2 = k + countKicked pts (runStep c pts k).1 ∧
      (runStep c pts k).2 ≤ max k 2 := by
  intro pts
  induction pts with
  | nil =>
      intro k
      rw [runStep_nil]
      exact ⟨by simp [countKicked], le_max_left k 2⟩
  | cons hd rest ih =>
      intro k
      obtain ⟨p, t⟩ := hd
      rw [runStep_cons]
      have hcount : ∀ (q : PointState × Bool) (l : List (PointState × Bool)),
          countKicked ((p, t) :: rest) (q :: l) =
            countKicked rest l + (if kickedPair ((p, t), q) then 1 else 0) := by
        intro q l
        unfold countKicked
        rw [List.zip_cons_cons, List.countP_cons]
        simp
      rcases procPoint_counter c p k t with ⟨hk, hkick⟩ | ⟨hk, hkick, hge, hlt⟩
      · obtain ⟨ih1, ih2⟩ := ih (procPoint c p k t).2.1
        constructor
        · rw [hcount, ih1, hk]
          have hnot : ¬ kickedPair ((p, t),
              ((procPoint c p k t).1, (procPoint c p k t).2.2)) := by
            intro hcon
            obtain ⟨ha, hb⟩ := hcon
            simp only at ha hb
            rw [hkick] at hb
            rw [hb] at ha
            norm_num at ha
          rw [if_neg hnot]
          simp
        · calc (runStep c rest (procPoint c p k t).2.1).2
              ≤ max (procPoint c p k t).2.1 2 := ih2
            _ = max k 2 := by rw [hk]
      · obtain ⟨ih1, ih2⟩ := ih (procPoint c p k t).2.1
        constructor
        · rw [hcount, ih1, hk]
          have hyes : kickedPair ((p, t),
              ((procPoint c p k t).1, (procPoint c p k t).2.2)) := ⟨hge, hkick⟩
          rw [if_pos hyes]
          ring
        · show (runStep c rest (procPoint c p k t).2.1).2 ≤ max k 2
          calc (runStep c rest (procPoint c p k t).2.1).2
              ≤ max (procPoint c p k t).2.1 2 := ih2
            _ = 2 := by rw [hk]; exact max_eq_right (by omega)
            _ ≤ max k 2 := le_max_right k 2

/-- C6: one interpolation step of `spreadDots` (the inner loop over all
    points, with the kick counter starting at 0 as in the source) issues at
    most 2 new kicks — transitions setting `kickProgress` to 0 — regardless
    of how many points satisfy the distance and force conditions. -/
theorem c6_kick_cap (c : StepCtx) (pts : List (PointState × Bool)) :
    countKicked pts (runStep c pts 0).1 ≤ 2 := by
  obtain ⟨h1, h2⟩ := runStep_spec c pts 0
  rw [h1] at h2
  simpa using h2

/-! ### Claim C9: the exclusion-boundary placement -/

lemma applyQuat_sub (q : Quat) (a b : Vec3) :
    applyQuat q (a - b) = applyQuat q a - applyQuat q b := by
  apply vec3_eq <;> simp [applyQuat] <;> ring

lemma qnorm2_conj (q : Quat) : qnorm2 (qconj q) = qnorm2 q := by
  unfold qnorm2 qconj
  ring

lemma applyQuat_isometry (q : Quat) (hq : qnorm2 q = 1) (v : Vec3) :
    vlength (applyQuat q v) = vlength v := by
  have hd : dotV (applyQuat q v) (applyQuat q v) = dotV v v := by
    unfold applyQuat dotV
    unfold qnorm2 at hq
    dsimp only
    linear_combination (4 * ((q.y * v.z - q.z * v.y) ^ 2 +
      (q.z * v.x - q.x * v.z) ^ 2 + (q.x * v.y - q.y * v.x) ^ 2)) * hq
  unfold vlength
  rw [hd]

lemma applyQuat_id (v : Vec3) : applyQuat idQuat v = v := by
  apply vec3_eq <;> simp [applyQuat, idQuat]

/-- C9 amended: a point processed inside the exclusion zone (kicked or
    snapped alike) gets an offset that places it, in the sphere's local
    (inverse-rotated) frame, at distance exactly `CURSOR_RADIUS + 0.001`
    from the localized interpolated cursor — the code adds the 0.001
    epsilon, so the distance is not exactly `CURSOR_RADIUS`. -/
theorem c9_exclusion_boundary_amended (c : StepCtx) (p : PointState) (k : ℕ) (t : Bool)
    (hq : qnorm2 c.quat = 1)
    (hk : ¬ p.kickT < 1)
    (hin : vlength (applyQuat c.quat p.orig - c.interp) < c.cursorRadius)
    (hnz : applyQuat c.quat p.orig - c.interp ≠ 0)
    (hcr : 0 ≤ c.cursorRadius + 0.001) :
    vlength ((p.orig + (procPoint c p k t).1.offset)
        - applyQuat (qconj c.quat) c.interp) = c.cursorRadius + 0.001 := by
  set W : Vec3 := c.interp + (c.cursorRadius + 0.001) •
    vnormalize (applyQuat c.quat p.orig - c.interp) with hW
  have hoff : (procPoint c p k t).1.offset = applyQuat (qconj c.quat) W - p.orig := by
    unfold procPoint
    rw [if_neg hk]
    dsimp only
    rw [if_pos hin]
    by_cases hf : 0.5 < forceOf c.pointer c.lastPointer ∧ k < 2
    · rw [if_pos hf]
    · rw [if_neg hf]
  have hsum : p.orig + (applyQuat (qconj c.quat) W - p.orig)
      = applyQuat (qconj c.quat) W := by
    apply vec3_eq <;> simp
  have hWi : W - c.interp = (c.cursorRadius + 0.001) •
      vnormalize (applyQuat c.quat p.orig - c.interp) := by
    rw [hW]
    apply vec3_eq <;> simp
  rw [hoff, hsum, ← applyQuat_sub, applyQuat_isometry _ (by rw [qnorm2_conj]; exact hq),
      hWi, vlength_smul, vlength_normalize _ hnz, abs_of_nonneg hcr, mul_one]

lemma vlength_zz (a : ℝ) (ha : 0 ≤ a) : vlength ⟨0, 0, a⟩ = a := by
  unfold vlength dotV
  dsimp only
  rw [show (0 * 0 + 0 * 0 + a * a : ℝ) = a * a by ring, Real.sqrt_mul_self ha]

lemma applyQuat_conj_id (v : Vec3) : applyQuat (qconj idQuat) v = v := by
  apply vec3_eq <;> simp [applyQuat, qconj, idQuat]

/-- Concrete step context for C9: identity rotation, radius-2 sphere
    (`CURSOR_RADIUS = 0.76`), cursor at `(1.6, 0, 0.7)`, slow pointer. -/
def c9ctx : StepCtx :=
  { interp := ⟨1.6, 0, 0.7⟩, cursor := ⟨1.6, 0, 0.7⟩, quat := idQuat,
    cursorRadius := 0.76, radius := 2, pointer := (0, 0), lastPointer := none }

/-- Concrete point for C9, at rest at `(1.6, 0, 1.2)`, distance 0.5 from
    the cursor (inside the exclusion zone). -/
def c9pt : PointState := ⟨⟨1.6, 0, 1.2⟩, 0, 0, 1, 0, 0⟩

lemma c9_sub : applyQuat c9ctx.quat c9pt.orig - c9ctx.interp = ⟨0, 0, 0.5⟩ := by
  rw [show c9ctx.quat = idQuat from rfl, applyQuat_id]
  apply vec3_eq <;> simp [c9ctx, c9pt] <;> norm_num

lemma c9_dist : vlength (applyQuat c9ctx.quat c9pt.orig - c9ctx.interp)
    < c9ctx.cursorRadius := by
  rw [c9_sub, vlength_zz 0.5 (by norm_num)]
  show (0.5 : ℝ) < 0.76
  norm_num

lemma c9_force : forceOf c9ctx.pointer c9ctx.lastPointer = 0 := by
  show forceOf (0, 0) none = 0
  unfold forceOf
  simp

lemma c9_nz : applyQuat c9ctx.quat c9pt.orig - c9ctx.interp ≠ 0 := by
  rw [c9_sub]
  intro hcon
  have hz := congrArg Vec3.z hcon
  simp at hz
  norm_num at hz

lemma c9_normalize : vnormalize ⟨0, 0, 0.5⟩ = ⟨0, 0, 1⟩ := by
  unfold vnormalize
  rw [vlength_zz 0.5 (by norm_num), if_neg (by norm_num : (0.5 : ℝ) ≠ 0)]
  apply vec3_eq <;> simp <;> norm_num

lemma c9_offset : (procPoint c9ctx c9pt 0 false).1.offset = ⟨0, 0, 0.261⟩ := by
  unfold procPoint
  rw [if_neg (show ¬ c9pt.kickT < 1 by show ¬ (1 : ℝ) < 1; norm_num)]
  dsimp only
  rw [if_pos c9_dist,
      if_neg (show ¬ (0.5 < forceOf c9ctx.pointer c9ctx.lastPointer ∧ 0 < 2) by
        rw [c9_force]; intro hcon; norm_num at hcon)]
  dsimp only
  rw [c9_sub, c9_normalize, show c9ctx.quat = idQuat from rfl, applyQuat_conj_id]
  apply vec3_eq <;> simp [c9ctx, c9pt] <;> norm_num

/-- C9 counterexample: at a concrete snap inside the exclusion zone the
    point ends at distance `CURSOR_RADIUS + 0.001 = 0.761` from the
    interpolated cursor, not at the claimed `CURSOR_RADIUS = 0.38 * radius
    = 0.76`. -/
theorem c9_exclusion_boundary_cex :
    vlength ((c9pt.orig + (procPoint c9ctx c9pt 0 false).1.offset)
        - applyQuat (qconj c9ctx.quat) c9ctx.interp) ≠ 0.38 * c9ctx.radius := by
  rw [c9_offset, show c9ctx.quat = idQuat from rfl, applyQuat_conj_id,
      show c9pt.orig + (⟨0, 0, 0.261⟩ : Vec3) - c9ctx.interp = ⟨0, 0, 0.761⟩ by
        apply vec3_eq <;> simp [c9ctx, c9pt] <;> norm_num,
      vlength_zz 0.761 (by norm_num)]
  show (0.761 : ℝ) ≠ 0.38 * c9ctx.radius
  rw [show c9ctx.radius = 2 from rfl]
  norm_num

/-- Witness for the amended C9 at the same concrete snap. -/
theorem c9_exclusion_boundary_amended_witness :
    qnorm2 c9ctx.quat = 1 ∧ ¬ c9pt.kickT < 1 ∧
    vlength (applyQuat c9ctx.quat c9pt.orig - c9ctx.interp) < c9ctx.cursorRadius ∧
    applyQuat c9ctx.quat c9pt.orig - c9ctx.interp ≠ 0 ∧
    0 ≤ c9ctx.cursorRadius + 0.001 ∧
    vlength ((c9pt.orig + (procPoint c9ctx c9pt 0 false).1.offset)
        - applyQuat (qconj c9ctx.quat) c9ctx.interp) = c9ctx.cursorRadius + 0.001 := by
  have h1 : qnorm2 c9ctx.quat = 1 := by
    rw [show c9ctx.quat = idQuat from rfl]
    unfold qnorm2 idQuat
    norm_num
  have h2 : ¬ c9pt.kickT < 1 := by
    show ¬ (1 : ℝ) < 1
    norm_num
  have h5 : (0 : ℝ) ≤ c9ctx.cursorRadius + 0.001 := by
    show (0 : ℝ) ≤ 0.76 + 0.001
    norm_num
  exact ⟨h1, h2, c9_dist, c9_nz, h5,
    c9_exclusion_boundary_amended c9ctx c9pt 0 false h1 h2 c9_dist c9_nz h5⟩

/-! ### Claim C2: regime exclusivity

The three dynamic regimes of the spec are not mutually exclusive in the
code: a soft-band touch sets `returnTimer = 0.4`, and a later kick sets
`kickProgress = 0` without clearing the timer.  The counterexample drives
one concrete frame from a state satisfying the exclusivity invariant to a
state violating it. -/

/-- The spec's regime-exclusivity invariant (section 3), in the form the
    claim asserts: kicking (`kickT < 1`) and holding (`timer > 0`) never
    hold simultaneously. -/
def regimeExclusive (S : SphereState) : Prop :=
  ∀ p ∈ S.points, ¬ (p.kickT < 1 ∧ 0 < p.timer)

lemma procPoint_skip (c : StepCtx) (p : PointState) (k : ℕ) (t : Bool)
    (h : p.kickT < 1) : procPoint c p k t = (p, k, t) := by
  unfold procPoint
  rw [if_pos h]

lemma procPoint_soft_ex (c : StepCtx) (p : PointState) (k : ℕ) (t : Bool)
    (h1 : ¬ p.kickT < 1)
    (h2 : ¬ vlength (applyQuat c.quat p.orig - c.interp) < c.cursorRadius)
    (h3 : vlength (applyQuat c.quat p.orig - c.interp) < c.cursorRadius + 0.18) :
    ∃ O : Vec3, procPoint c p k t = ({ p with offset := O, timer := 0.4 }, k, true) := by
  refine ⟨p.offset + (0.18 : ℝ) •
      (applyQuat (qconj c.quat) (c.cursor + (c.cursorRadius + 0.001) •
        vnormalize (applyQuat c.quat p.orig - c.interp)) - (p.orig + p.offset)), ?_⟩
  unfold procPoint
  rw [if_neg h1]
  dsimp only
  rw [if_neg h2, if_pos h3]

lemma procPoint_kick_ex (c : StepCtx) (p : PointState) (k : ℕ) (t : Bool)
    (h1 : ¬ p.kickT < 1)
    (h2 : vlength (applyQuat c.quat p.orig - c.interp) < c.cursorRadius)
    (h3 : 0.5 < forceOf c.pointer c.lastPointer ∧ k < 2) :
    ∃ KS KD O : Vec3, procPoint c p k t =
      ({ p with kickStart := KS, kickT := 0, kickDir := KD, offset := O },
       k + 1, true) := by
  refine ⟨applyQuat (qconj c.quat) (c.interp + (c.cursorRadius + 0.001) •
        vnormalize (applyQuat c.quat p.orig - c.interp)) - p.orig,
    applyQuat (qconj c.quat)
      (clampR (0.7 * max 0 (forceOf c.pointer c.lastPointer - 1.0) ^ (1.15 : ℝ)) 0
          (c.radius * 0.7) •
        vnormalize (applyQuat c.quat p.orig - c.interp)),
    applyQuat (qconj c.quat) (c.interp + (c.cursorRadius + 0.001) •
        vnormalize (applyQuat c.quat p.orig - c.interp)) - p.orig, ?_⟩
  unfold procPoint
  rw [if_neg h1]
  dsimp only
  rw [if_pos h2, if_pos h3]

lemma runStep_single (c : StepCtx) (p : PointState) (t : Bool) (k : ℕ) :
    runStep c [(p, t)] k =
      ([((procPoint c p k t).1, (procPoint c p k t).2.2)],
       (procPoint c p k t).2.1) := by
  rw [runStep_cons, runStep_nil]

lemma runStep_all_kicking (c : StepCtx) :
    ∀ (pts : List (PointState × Bool)) (k : ℕ),
      (∀ q ∈ pts, q.1.kickT < 1) → runStep c pts k = (pts, k) := by
  intro pts
  induction pts with
  | nil => intro k _; rfl
  | cons hd rest ih =>
      intro k h
      obtain ⟨p, t⟩ := hd
      rw [runStep_cons, procPoint_skip c p k t (h (p, t) (by simp))]
      dsimp only
      rw [ih k (fun q hq => h q (List.mem_cons_of_mem _ hq))]

lemma foldl_stable {α β : Type _} (f : α → β → α) (a : α) :
    ∀ l : List β, (∀ b ∈ l, f a b = a) → l.foldl f a = a := by
  intro l
  induction l with
  | nil => intro _; rfl
  | cons b rest ih =>
      intro h
      rw [List.foldl_cons, h b (by simp)]
      exact ih (fun x hx => h x (List.mem_cons_of_mem _ hx))

lemma vlength_xz (a b : ℝ) : vlength ⟨a, 0, b⟩ = Real.sqrt (a * a + b * b) := by
  unfold vlength dotV
  dsimp only
  rw [show a * a + 0 * 0 + b * b = a * a + b * b by ring]

/-- The camera raycaster of the C2 counterexample: a perspective camera at
    `(0, 0, 5)`; the pointer NDC with first coordinate -1 maps to the ray
    toward `(66, 0, -213)` and any other sample to the ray toward
    `(8, 0, -19)` (both rays hit the radius-2 sphere). -/
def c2ray : ℝ × ℝ → Vec3 × Vec3 := fun n =>
  if n.1 = -1 then (⟨0, 0, 5⟩, ⟨66, 0, -213⟩) else (⟨0, 0, 5⟩, ⟨8, 0, -19⟩)

/-- C2 initial point: at rest on the sphere at `(8/5, 0, 6/5)` with a
    positive hold timer (the Held regime — exclusivity holds). -/
def c2pt : PointState := ⟨⟨8/5, 0, 6/5⟩, 0, 0.4, 1, 0, 0⟩

/-- The point after `animateSpreadReturn` of the counterexample frame. -/
def c2p1 : PointState := ⟨⟨8/5, 0, 6/5⟩, 0, 0.383, 1, 0, 0⟩

/-- C2 frame input: the pointer moved from `(0,0)` to `(3,0)` (screen
    speed 3, force 0.6) on a 2x2 viewport. -/
def c2inp : UpdateInput :=
  { time := 0, pointer := some (3, 0), lastPointer := some (0, 0),
    lastPointerEvent := true, width := 2, height := 2, rayOf := c2ray,
    camPos := ⟨0, 0, 5⟩, quat := idQuat }

/-- C2 initial service state: a radius-2 sphere with the single point. -/
def c2S : ServiceState :=
  { morphLerp := 1, morphTarget := 1, enableMorph := true,
    sphere := { radius := 2, points := [c2pt] } }

/-- The `FrameInput` that `updateState` passes to `spreadDots` for the C2
    frame. -/
def c2fin : FrameInput :=
  { pointer := (3, 0), lastPointer := some (0, 0), lastPointerEvent := true,
    width := 2, height := 2, rayOf := c2ray, camPos := ⟨0, 0, 5⟩, quat := idQuat }

/-- The sphere state after the `animateSpreadReturn` part of the frame. -/
def c2sph1 : SphereState := { radius := 2, points := [c2p1] }

lemma c2_anim : animPoint c2pt = c2p1 := by
  unfold animPoint
  rw [if_neg (show ¬ c2pt.kickT < 1 by show ¬ (1 : ℝ) < 1; norm_num),
      if_pos (show 0 < c2pt.timer by show (0 : ℝ) < 0.4; norm_num)]
  dsimp only
  rw [if_neg (show ¬ c2pt.timer - 0.017 < 0 by show ¬ (0.4 : ℝ) - 0.017 < 0; norm_num)]
  refine pointState_eq _ _ rfl rfl ?_ rfl rfl rfl
  show (0.4 : ℝ) - 0.017 = 0.383
  norm_num

lemma c2_res_cur : resolveCursor ⟨0, 0, 5⟩ ⟨8, 0, -19⟩ ⟨0, 0, 5⟩ 2 = ⟨8/5, 0, 6/5⟩ := by
  have hdisc : rsDisc ⟨0, 0, 5⟩ ⟨8, 0, -19⟩ 2 = 400 := by
    unfold rsDisc rsB rsA rsC dotV
    norm_num
  have hsq : Real.sqrt 400 = 20 := by
    rw [show (400 : ℝ) = 20 ^ 2 by norm_num, Real.sqrt_sq (by norm_num : (0:ℝ) ≤ 20)]
  have ht : rsT ⟨0, 0, 5⟩ ⟨8, 0, -19⟩ 2 = 1/5 := by
    unfold rsT
    rw [hdisc, hsq]
    unfold rsB rsA dotV
    norm_num
  unfold resolveCursor
  rw [if_pos (show (0:ℝ) ≤ rsDisc ⟨0, 0, 5⟩ ⟨8, 0, -19⟩ 2 by rw [hdisc]; norm_num), ht]
  apply vec3_eq <;> simp <;> norm_num

lemma c2_res_prev : resolveCursor ⟨0, 0, 5⟩ ⟨66, 0, -213⟩ ⟨0, 0, 5⟩ 2
    = ⟨66/65, 0, 112/65⟩ := by
  have hdisc : rsDisc ⟨0, 0, 5⟩ ⟨66, 0, -213⟩ 2 = 360000 := by
    unfold rsDisc rsB rsA rsC dotV
    norm_num
  have hsq : Real.sqrt 360000 = 600 := by
    rw [show (360000 : ℝ) = 600 ^ 2 by norm_num, Real.sqrt_sq (by norm_num : (0:ℝ) ≤ 600)]
  have ht : rsT ⟨0, 0, 5⟩ ⟨66, 0, -213⟩ 2 = 1/65 := by
    unfold rsT
    rw [hdisc, hsq]
    unfold rsB rsA dotV
    norm_num
  unfold resolveCursor
  rw [if_pos (show (0:ℝ) ≤ rsDisc ⟨0, 0, 5⟩ ⟨66, 0, -213⟩ 2 by rw [hdisc]; norm_num), ht]
  apply vec3_eq <;> simp <;> norm_num

lemma c2_cur : cursorWorldOf c2fin 2 (3, 0) = ⟨8/5, 0, 6/5⟩ := by
  have hndc : toNDC 2 2 3 0 = ((3/2) * 2 - 1, -(0/2) * 2 + 1) := rfl
  have hray : c2ray ((3/2) * 2 - 1, -(0/2) * 2 + 1) = (⟨0, 0, 5⟩, ⟨8, 0, -19⟩) := by
    unfold c2ray
    dsimp only
    rw [if_neg (by norm_num : ¬ ((3:ℝ)/2) * 2 - 1 = -1)]
  show resolveCursor (c2ray (toNDC 2 2 3 0)).1 (c2ray (toNDC 2 2 3 0)).2 ⟨0, 0, 5⟩ 2
      = ⟨8/5, 0, 6/5⟩
  rw [hndc, hray]
  exact c2_res_cur

lemma c2_prev : cursorWorldOf c2fin 2 (0, 0) = ⟨66/65, 0, 112/65⟩ := by
  have hndc : toNDC 2 2 0 0 = ((0/2) * 2 - 1, -(0/2) * 2 + 1) := rfl
  have hray : c2ray ((0/2) * 2 - 1, -(0/2) * 2 + 1) = (⟨0, 0, 5⟩, ⟨66, 0, -213⟩) := by
    unfold c2ray
    dsimp only
    rw [if_pos (by norm_num : ((0:ℝ)/2) * 2 - 1 = -1)]
  show resolveCursor (c2ray (toNDC 2 2 0 0)).1 (c2ray (toNDC 2 2 0 0)).2 ⟨0, 0, 5⟩ 2
      = ⟨66/65, 0, 112/65⟩
  rw [hndc, hray]
  exact c2_res_prev

/-- Resolved current cursor of the C2 frame: the point `(8/5, 0, 6/5)` on
    the sphere. -/
def c2c : Vec3 := ⟨8/5, 0, 6/5⟩

/-- Resolved previous cursor of the C2 frame: `(66/65, 0, 112/65)`. -/
def c2c0 : Vec3 := ⟨66/65, 0, 112/65⟩

lemma c2_cur_c : cursorWorldOf c2fin 2 (3, 0) = c2c := c2_cur

lemma c2_prev_c : cursorWorldOf c2fin 2 (0, 0) = c2c0 := c2_prev

lemma c2_h1 : ¬ c2p1.kickT < 1 := by
  show ¬ (1 : ℝ) < 1
  norm_num

lemma c2_i0 : (stepCtxAt c2fin 2 c2c (some c2c0) 0).interp = c2c0 := by
  show lerpVec3 c2c0 c2c (((0 : ℕ) : ℝ) / 12) = c2c0
  apply vec3_eq <;> (unfold lerpVec3 c2c0 c2c; dsimp only; norm_num)

lemma c2_i1 : (stepCtxAt c2fin 2 c2c (some c2c0) 1).interp = ⟨83/78, 0, 131/78⟩ := by
  show lerpVec3 c2c0 c2c (((1 : ℕ) : ℝ) / 12) = ⟨83/78, 0, 131/78⟩
  apply vec3_eq <;> (unfold lerpVec3 c2c0 c2c; dsimp only; norm_num)

lemma c2_v0 : applyQuat (stepCtxAt c2fin 2 c2c (some c2c0) 0).quat c2p1.orig
    - (stepCtxAt c2fin 2 c2c (some c2c0) 0).interp = ⟨38/65, 0, -34/65⟩ := by
  rw [show (stepCtxAt c2fin 2 c2c (some c2c0) 0).quat = idQuat from rfl,
      applyQuat_id, c2_i0]
  apply vec3_eq <;> simp [c2p1, c2c0] <;> norm_num

lemma c2_v1 : applyQuat (stepCtxAt c2fin 2 c2c (some c2c0) 1).quat c2p1.orig
    - (stepCtxAt c2fin 2 c2c (some c2c0) 1).interp = ⟨209/390, 0, -187/390⟩ := by
  rw [show (stepCtxAt c2fin 2 c2c (some c2c0) 1).quat = idQuat from rfl,
      applyQuat_id, c2_i1]
  apply vec3_eq <;> simp [c2p1] <;> norm_num

lemma c2_nothard0 : ¬ vlength (applyQuat (stepCtxAt c2fin 2 c2c (some c2c0) 0).quat c2p1.orig
    - (stepCtxAt c2fin 2 c2c (some c2c0) 0).interp)
    < (stepCtxAt c2fin 2 c2c (some c2c0) 0).cursorRadius := by
  rw [c2_v0, vlength_xz]
  show ¬ Real.sqrt (38/65 * (38/65) + -34/65 * (-34/65)) < 2 * 0.38
  apply not_lt.mpr
  apply Real.le_sqrt_of_sq_le
  norm_num

lemma c2_soft0 : vlength (applyQuat (stepCtxAt c2fin 2 c2c (some c2c0) 0).quat c2p1.orig
    - (stepCtxAt c2fin 2 c2c (some c2c0) 0).interp)
    < (stepCtxAt c2fin 2 c2c (some c2c0) 0).cursorRadius + 0.18 := by
  rw [c2_v0, vlength_xz]
  show Real.sqrt (38/65 * (38/65) + -34/65 * (-34/65)) < 2 * 0.38 + 0.18
  exact (Real.sqrt_lt' (by norm_num)).mpr (by norm_num)

lemma c2_hard1 : vlength (applyQuat (stepCtxAt c2fin 2 c2c (some c2c0) 1).quat c2p1.orig
    - (stepCtxAt c2fin 2 c2c (some c2c0) 1).interp)
    < (stepCtxAt c2fin 2 c2c (some c2c0) 1).cursorRadius := by
  rw [c2_v1, vlength_xz]
  show Real.sqrt (209/390 * (209/390) + -187/390 * (-187/390)) < 2 * 0.38
  exact (Real.sqrt_lt' (by norm_num)).mpr (by norm_num)

lemma c2_force1 : 0.5 < forceOf (stepCtxAt c2fin 2 c2c (some c2c0) 1).pointer
    (stepCtxAt c2fin 2 c2c (some c2c0) 1).lastPointer ∧ (0 : ℕ) < 2 := by
  constructor
  · show (0.5 : ℝ) < forceOf (3, 0) (some (0, 0))
    unfold forceOf
    dsimp only
    rw [show ((3 : ℝ) - 0) * ((3 : ℝ) - 0) + ((0 : ℝ) - 0) * ((0 : ℝ) - 0) = 3 ^ 2 by
          norm_num,
        Real.sqrt_sq (by norm_num : (0 : ℝ) ≤ 3)]
    norm_num
  · norm_num

lemma c2_aux : ∃ O KD KS : Vec3,
    spreadDotsAux c2fin c2sph1 =
      [(⟨⟨8/5, 0, 6/5⟩, O, 0.4, 0, KD, KS⟩, true)] := by
  obtain ⟨O1, h0⟩ :=
    procPoint_soft_ex (stepCtxAt c2fin 2 c2c (some c2c0) 0) c2p1 0 false
      c2_h1 c2_nothard0 c2_soft0
  obtain ⟨KS, KD, O2, h1⟩ :=
    procPoint_kick_ex (stepCtxAt c2fin 2 c2c (some c2c0) 1)
      ({ c2p1 with offset := O1, timer := 0.4 }) 0 true
      c2_h1 c2_hard1 c2_force1
  refine ⟨O2, KD, KS, ?_⟩
  have hred : spreadDotsAux c2fin c2sph1 =
      spreadPass c2fin 2 (cursorWorldOf c2fin 2 (3, 0))
        (some (cursorWorldOf c2fin 2 (0, 0))) [(c2p1, false)] := rfl
  rw [hred, c2_cur_c, c2_prev_c]
  unfold spreadPass
  rw [show List.range 13 = 0 :: 1 :: [2, 3, 4, 5, 6, 7, 8, 9, 10, 11, 12] from rfl]
  rw [List.foldl_cons, List.foldl_cons]
  rw [runStep_single, h0]
  dsimp only
  rw [runStep_single, h1]
  dsimp only
  rw [foldl_stable _ _ _ ?_]
  · dsimp only [c2p1]
  · intro b hb
    dsimp only
    rw [runStep_all_kicking _ _ 0 ?_]
    intro q hq
    rw [List.mem_singleton] at hq
    subst hq
    show (0 : ℝ) < 1
    norm_num

lemma c2_upd_sphere : (updateState c2inp c2S).sphere = spreadDots c2fin c2sph1 := by
  have h1 : (updateState c2inp c2S).sphere
      = spreadDots c2fin { radius := 2, points := [animPoint c2pt] } := rfl
  rw [h1, c2_anim]
  rfl

/-- C2 counterexample: the regime-exclusivity invariant is not preserved by
    a frame update.  From a Held point (`kickT = 1`, `timer = 0.4`, which
    satisfies exclusivity) one concrete frame — a soft-band touch at the
    first interpolation sample followed by a kick at the second — produces
    `kickT = 0` together with `timer = 0.4 > 0`: kicking and holding hold
    simultaneously. -/
theorem c2_regime_exclusivity_cex :
    ¬ (∀ (inp : UpdateInput) (S : ServiceState),
        regimeExclusive S.sphere → regimeExclusive (updateState inp S).sphere) := by
  intro H
  have hS : regimeExclusive c2S.sphere := by
    intro p hp
    have hp1 : p = c2pt := by
      have : c2S.sphere.points = [c2pt] := rfl
      rw [this, List.mem_singleton] at hp
      exact hp
    subst hp1
    intro hcon
    have hlt := hcon.1
    have : ¬ c2pt.kickT < 1 := by
      show ¬ (1 : ℝ) < 1
      norm_num
    exact this hlt
  have h := H c2inp c2S hS
  obtain ⟨O, KD, KS, haux⟩ := c2_aux
  have hpts : (updateState c2inp c2S).sphere.points
      = [(⟨⟨8/5, 0, 6/5⟩, O, 0.4, 0, KD, KS⟩ : PointState)] := by
    rw [c2_upd_sphere]
    unfold spreadDots
    dsimp only
    rw [haux]
    rfl
  have hmem : (⟨⟨8/5, 0, 6/5⟩, O, 0.4, 0, KD, KS⟩ : PointState)
      ∈ (updateState c2inp c2S).sphere.points := by
    rw [hpts]
    exact List.mem_singleton_self _
  apply h _ hmem
  constructor
  · show (0 : ℝ) < 1
    norm_num
  · show (0 : ℝ) < 0.4
    norm_num

lemma animPoint_wf (p : PointState) (h : 0 ≤ p.timer ∧ p.kickT ≤ 1) :
    0 ≤ (animPoint p).timer ∧ (animPoint p).kickT ≤ 1 := by
  unfold animPoint
  dsimp only
  split_ifs with h1 h2 h3 h4
  · exact ⟨h.1, le_refl 1⟩
  · exact ⟨h.1, not_lt.mp h2⟩
  · exact ⟨le_refl 0, h.2⟩
  · exact ⟨not_lt.mp h4, h.2⟩
  · exact h

lemma procPoint_wf (c : StepCtx) (p : PointState) (k : ℕ) (t : Bool)
    (h : 0 ≤ p.timer ∧ p.kickT ≤ 1) :
    0 ≤ (procPoint c p k t).1.timer ∧ (procPoint c p k t).1.kickT ≤ 1 := by
  unfold procPoint
  dsimp only
  split_ifs with h1 h2 h3 h4
  · exact h
  · exact ⟨h.1, by norm_num⟩
  · exact h
  · exact ⟨by norm_num, h.2⟩
  · exact h

lemma runStep_wf (c : StepCtx) :
    ∀ (pts : List (PointState × Bool)) (k : ℕ),
      (∀ q ∈ pts, 0 ≤ q.1.timer ∧ q.1.kickT ≤ 1) →
      ∀ q ∈ (runStep c pts k).1, 0 ≤ q.1.timer ∧ q.1.kickT ≤ 1 := by
  intro pts
  induction pts with
  | nil =>
      intro k _ q hq
      rw [runStep_nil] at hq
      cases hq
  | cons hd rest ih =>
      intro k h q hq
      obtain ⟨p, t⟩ := hd
      rw [runStep_cons] at hq
      rw [List.mem_cons] at hq
      rcases hq with hq | hq
      · subst hq
        exact procPoint_wf c p k t (h (p, t) (List.mem_cons_self _ _))
      · exact ih _ (fun r hr => h r (List.mem_cons_of_mem _ hr)) q hq

lemma foldl_preserve {α β : Type _} (P : α → Prop) (f : α → β → α)
    (hstep : ∀ a b, P a → P (f a b)) :
    ∀ (l : List β) (a : α), P a → P (l.foldl f a) := by
  intro l
  induction l with
  | nil => intro a h; exact h
  | cons b rest ih =>
      intro a h
      rw [List.foldl_cons]
      exact ih _ (hstep a b h)

lemma spreadDots_wf (inp : FrameInput) (S : SphereState)
    (h : ∀ p ∈ S.points, 0 ≤ p.timer ∧ p.kickT ≤ 1) :
    ∀ p ∈ (spreadDots inp S).points, 0 ≤ p.timer ∧ p.kickT ≤ 1 := by
  intro p hp
  unfold spreadDots at hp
  dsimp only at hp
  rw [List.mem_map] at hp
  obtain ⟨q, hq, hqe⟩ := hp
  have base : ∀ r ∈ (S.points.map fun p => (p, false)),
      0 ≤ r.1.timer ∧ r.1.kickT ≤ 1 := by
    intro r hr
    rw [List.mem_map] at hr
    obtain ⟨p0, hp0, hp0e⟩ := hr
    subst hp0e
    exact h p0 hp0
  unfold spreadDotsAux spreadPass at hq
  have hq' := foldl_preserve
    (fun acc => ∀ r ∈ acc, 0 ≤ r.1.timer ∧ r.1.kickT ≤ 1) _
    (fun a b ha => runStep_wf _ a 0 ha) (List.range 13) _ base q hq
  rw [← hqe]
  by_cases hc : q.2
  · rw [if_pos hc]
    exact hq'
  · rw [if_neg hc]
    exact ⟨le_refl 0, hq'.2⟩

/-- C2 amended: the three regimes are not mutually exclusive — the
    counterexample shows a reachable state with `kickProgress < 1` and
    `returnTimer > 0` simultaneously (kicking takes priority in the
    update).  What does hold: the frame update preserves `0 <= returnTimer`
    and `kickProgress <= 1`, and under those bounds every point is in at
    least one of the three regimes at any time. -/
theorem c2_regime_coverage (inp : UpdateInput) (S : ServiceState)
    (h : ∀ p ∈ S.sphere.points, 0 ≤ p.timer ∧ p.kickT ≤ 1) :
    (∀ p ∈ (updateState inp S).sphere.points, 0 ≤ p.timer ∧ p.kickT ≤ 1) ∧
    (∀ p ∈ (updateState inp S).sphere.points,
      p.kickT < 1 ∨ 0 < p.timer ∨ (p.timer = 0 ∧ p.kickT = 1)) := by
  have hanim : ∀ p ∈ S.sphere.points.map animPoint,
      0 ≤ p.timer ∧ p.kickT ≤ 1 := by
    intro p hp
    rw [List.mem_map] at hp
    obtain ⟨q, hq, he⟩ := hp
    subst he
    exact animPoint_wf q (h q hq)
  have hwf : ∀ p ∈ (updateState inp S).sphere.points,
      0 ≤ p.timer ∧ p.kickT ≤ 1 := by
    unfold updateState
    cases hi : inp.pointer with
    | none =>
        dsimp only
        exact hanim
    | some pt =>
        dsimp only
        exact spreadDots_wf _ _ hanim
  refine ⟨hwf, ?_⟩
  intro p hp
  have hb := hwf p hp
  rcases lt_or_le p.kickT 1 with hlt | hge
  · exact Or.inl hlt
  · rcases eq_or_lt_of_le hb.1 with he | hlt2
    · exact Or.inr (Or.inr ⟨he.symm, le_antisymm hb.2 hge⟩)
    · exact Or.inr (Or.inl hlt2)

/-- Concrete frame input for the C2 amended witness (no pointer). -/
def c2winp : UpdateInput :=
  { time := 0, pointer := none, lastPointer := none, lastPointerEvent := false,
    width := 1, height := 1, rayOf := fun _ => (0, 0), camPos := 0, quat := idQuat }

/-- Concrete service state for the C2 amended witness. -/
def c2wS : ServiceState :=
  { morphLerp := 1, morphTarget := 1, enableMorph := true,
    sphere := { radius := 2, points := [⟨⟨0, 2, 0⟩, 0, 0, 1, 0, 0⟩] } }

/-- Witness for the amended C2 at a concrete one-point state. -/
theorem c2_regime_coverage_witness :
    (∀ p ∈ c2wS.sphere.points, 0 ≤ p.timer ∧ p.kickT ≤ 1) ∧
    ((∀ p ∈ (updateState c2winp c2wS).sphere.points, 0 ≤ p.timer ∧ p.kickT ≤ 1) ∧
     (∀ p ∈ (updateState c2winp c2wS).sphere.points,
        p.kickT < 1 ∨ 0 < p.timer ∨ (p.timer = 0 ∧ p.kickT = 1))) := by
  have hpre : ∀ p ∈ c2wS.sphere.points, 0 ≤ p.timer ∧ p.kickT ≤ 1 := by
    intro p hp
    have hp1 : p = (⟨⟨0, 2, 0⟩, 0, 0, 1, 0, 0⟩ : PointState) := by
      have hl : c2wS.sphere.points = [⟨⟨0, 2, 0⟩, 0, 0, 1, 0, 0⟩] := rfl
      rw [hl, List.mem_singleton] at hp
      exact hp
    subst hp1
    constructor
    · show (0 : ℝ) ≤ 0
      norm_num
    · show (1 : ℝ) ≤ 1
      norm_num
  exact ⟨hpre, c2_regime_coverage c2winp c2wS hpre⟩

end MorphingSphere
